import Mathlib

/-!
HeraclesDB Extendible Hash Table — verification development

Shallow embedding of `src/cpp/eht.cc` together with the declarations in
`src/cpp/include/memory/eht.h` and `src/cpp/include/general/config.h`.

Modelling conventions:

* The table is generic over the key and value types and over `std::hash`;
  we instantiate keys and values with `Nat` (the production instantiations
  are integer-like) and pass the hash function `h : Nat → Nat` explicitly
  to every operation, mirroring `hashKey`.
* `std::map<k,v>` is an ordered map with unique keys; we embed it as an
  association list kept sorted by key, so that iteration order in
  `split`'s range-for matches the source.
* `std::shared_ptr<Bucket>` aliasing (one bucket installed at several
  directory slots, mutated through any of them) is embedded as an arena:
  `store : List Bucket` holds the buckets, the directory holds indices
  into the arena, and in-place mutation is `List.set` at the index.
* Machine integers: `bkt_id_t` is `int16_t`, `size_t` is 64-bit unsigned,
  global/local depth and the bucket counter are `uint32_t`.  We embed ids
  as `Int` with explicit truncation `toInt16`, conversions to `size_t`
  indices as `toSizeT` (mod 2^64), and counters as `Nat` reduced mod the
  width where the source increments/decrements them.  `int` left shifts
  `1 << n` are embedded by the exact power `2^n` where the source's
  shift is defined, i.e. for `n ≤ 30` (`1 << 31` overflows the 32-bit
  `int` and shift counts ≥ 32 are out of range — both undefined
  behaviour before C++20).  The split loop is the one place whose shift
  count is unbounded (the pass at depth `d` shifts by `d - 1` and
  `d`), so its per-item bit test and id computation are guarded: a
  pass that would shift outside `[0, 30]` returns `none` (UB).  In
  particular the depth-ceiling test at `EHT_MAX_BUCKET_DEPTH = 50` is
  unreachable for a bucket that holds any item: the pass at depth 32
  already executes `1 << 31`.  Elsewhere the shift amounts of non-UB
  executions stay far below the limit: the directory depth stays ≤ 15,
  because a deeper split produces a negative `bkt_id_t` id and an
  out-of-bounds `std::vector` write (mapped to `none`) first.
* C++ undefined behaviour that the operations can actually reach
  (out-of-bounds `std::vector` access, dereferencing a null
  `shared_ptr`, exhaustion of the loop-fuel used to embed `split`'s
  `while`) is embedded as `Option`: an operation returns `none` exactly
  when the source's execution is undefined.
-/

namespace HeraclesEHT

/-! ## Configuration constants (`config.h`) -/

/-- `EHT_MAX_BUCKET_DEPTH` from `config.h`: maximum depth of one bucket. -/
def EHT_MAX_BUCKET_DEPTH : Nat := 50

/-- `EHT_MAX_BUCKET_SIZE` from `config.h`: key/value pairs per bucket. -/
def EHT_MAX_BUCKET_SIZE : Nat := 50

/-- `INVALID_ID` from `config.h`. -/
def INVALID_ID : Int := -1

/-! ## Machine-integer helpers

`bkt_id_t` is `int16_t` (`config.h` line 73).  `toInt16` is the value of
a mathematical integer truncated to 16 bits and read back as signed —
the effect of `static_cast<bkt_id_t>` on the source's hash/index
arithmetic.  `toSizeT` is the C++ integer conversion to the unsigned
64-bit `size_t` used by `std::vector::operator[]`. -/

/-- Truncate to a signed 16-bit value (`static_cast<bkt_id_t>`). -/
def toInt16 (n : Nat) : Int :=
  if n % 2 ^ 16 < 2 ^ 15 then ((n % 2 ^ 16 : Nat) : Int)
  else ((n % 2 ^ 16 : Nat) : Int) - 2 ^ 16

/-- Low 16 bits of a hash: the bit pattern stored in a `bkt_id_t`. -/
def trunc16 (n : Nat) : Nat := n % 2 ^ 16

/-- C++ conversion of an integer to `size_t` (mod `2^64`). -/
def toSizeT (z : Int) : Nat := (z % (2 ^ 64 : Int)).toNat

/-- Bit `n` of the `int` promotion (sign extension) of an `int16_t`
whose low 16 bits are `u`.  `split` computes
`hash & (1 << (bkt->depth - 1))` where `hash` is a `bkt_id_t`: for
`15 ≤ n` the tested bit is a sign-extension copy of bit 15.  Callers
only apply this for `n ≤ 30` — the defined range of the `int` shift;
larger shift counts are mapped to `none` by the caller (`passOne`). -/
def hashBit (u : Nat) (n : Nat) : Bool :=
  if n < 16 then u.testBit n else u.testBit 15

/-- `hash & ((1 << d) - 1)` for a sign-extended 16-bit `hash`, then
truncated back to 16 bits by the assignment to the `bkt_id_t` id field:
for `d < 16` this is `u % 2^d`; for `16 ≤ d` the sign-extension bits
land above bit 15 and are cut again by the truncation, leaving `u`
itself.  Callers only apply this for `d ≤ 30` — at `d = 31` the
source's `(1 << d) - 1` overflows `int` and is mapped to `none` by the
caller (`passOne`). -/
def idPattern (u : Nat) (d : Nat) : Nat :=
  if d < 16 then u % 2 ^ d else u

/-! ## `std::map` embedding: sorted association lists -/

/-- `std::map::find`, as a scan of the association list. -/
def mapFind? (k : Nat) : List (Nat × Nat) → Option Nat
  | [] => none
  | (a, b) :: t => if k = a then some b else mapFind? k t

/-- `std::map::insert {k,v}`: insert in key order, no overwrite when the
key is already present. -/
def mapInsert (k v : Nat) : List (Nat × Nat) → List (Nat × Nat)
  | [] => [(k, v)]
  | (a, b) :: t =>
    if k < a then (k, v) :: (a, b) :: t
    else if k = a then (a, b) :: t
    else (a, b) :: mapInsert k v t

/-- `map[k] = v`: overwrite in place (insert in order when absent). -/
def mapSet (k v : Nat) : List (Nat × Nat) → List (Nat × Nat)
  | [] => [(k, v)]
  | (a, b) :: t =>
    if k < a then (k, v) :: (a, b) :: t
    else if k = a then (a, v) :: t
    else (a, b) :: mapSet k v t

/-- `std::map::erase` of the entry found for `k`. -/
def mapErase (k : Nat) : List (Nat × Nat) → List (Nat × Nat)
  | [] => []
  | (a, b) :: t => if k = a then t else (a, b) :: mapErase k t

/-! ## Data model (`eht.h`) -/

/-- `EHTStatus` from `eht.h`.  The implementation file additionally uses
`NONEXISTENT_KEY` (the spec's `KeyNotFound`), which we include. -/
inductive EHTStatus where
  | GENERAL_SUCCESS
  | GENERAL_FAILURE
  | NEW_BKT_SUCCESS
  | NEW_BKT_FAILURE
  | OVERFLOW_BKT_SUCCESS
  | OVERFLOW_BKT_FAILURE
  | INDEX_OUT_OF_BOUNDS
  | MEMORY_EXCEPTION
  | NONEXISTENT_KEY
  deriving DecidableEq, Repr

/-- `ExtendibleHashTable::Bucket`: overflow flag, ordered key/value map,
`bkt_id_t` identifier and `uint32_t` local depth. -/
structure Bucket where
  overflowed : Bool
  items : List (Nat × Nat)
  id : Int
  depth : Nat
  deriving DecidableEq, Repr

/-- The table: bucket counter `nBkt`, global `depth`, pair counter
`nPairs`, the bucket arena `store`, and the directory of arena indices
(`none` embeds a null `shared_ptr` slot). -/
structure EHT where
  nBkt : Nat
  depth : Nat
  nPairs : Nat
  store : List Bucket
  directory : List (Option Nat)
  deriving DecidableEq, Repr

/-- The constructor (`eht.h` lines 101–104): depth 0, one root bucket
`Bucket(0, 0)`, bucket count 1, no pairs. -/
def initEHT : EHT :=
  { nBkt := 1, depth := 0, nPairs := 0
    store := [{ overflowed := false, items := [], id := 0, depth := 0 }]
    directory := [some 0] }

/-- `++` on the `uint32_t` bucket counter. -/
def incU32 (n : Nat) : Nat := (n + 1) % 2 ^ 32

/-- `++` on the `size_t` pair counter. -/
def incSizeT (n : Nat) : Nat := (n + 1) % 2 ^ 64

/-- `--` on the `size_t` pair counter. -/
def decSizeT (n : Nat) : Nat := if n = 0 then 2 ^ 64 - 1 else n - 1

/-! ## Accessors and indexing (`eht.cc` lines 44–72) -/

/-- `getGlobalDepth`. -/
def getGlobalDepth (t : EHT) : Nat := t.depth

/-- `getNumBuckets`. -/
def getNumBuckets (t : EHT) : Nat := t.nBkt

/-- `getLocalDepth(bktId)`: reads `directory[bktId]`; returns the
bucket's depth when the slot is occupied and `INVALID_ID` when it is
null.  An index outside the vector is undefined behaviour (`none`).
The function is `const`: it performs no writes, so no table is
returned. -/
def getLocalDepth (t : EHT) (bktId : Int) : Option Int :=
  match t.directory.get? (toSizeT bktId) with
  | none => none
  | some none => some INVALID_ID
  | some (some r) =>
    match t.store.get? r with
    | none => none
    | some b => some (b.depth : Int)

/-- `bktIndex` (`eht.cc` lines 63–66):
`static_cast<bkt_id_t>(hashKey(key) & ((1 << depth) - 1))`. -/
def bktIndex (h : Nat → Nat) (t : EHT) (k : Nat) : Int :=
  toInt16 (h k % 2 ^ t.depth)

/-! ## Lookup and deletion (`eht.cc` lines 75–119) -/

/-- `grab` (lookup): resolve the slot; null slot reports
`INDEX_OUT_OF_BOUNDS`; otherwise search the bucket's map.  The third
component is the table after the call — `grab` performs no writes. -/
def grab (h : Nat → Nat) (t : EHT) (k : Nat) :
    Option (EHTStatus × Option Nat × EHT) :=
  match t.directory.get? (toSizeT (bktIndex h t k)) with
  | none => none
  | some none => some (.INDEX_OUT_OF_BOUNDS, none, t)
  | some (some r) =>
    match t.store.get? r with
    | none => none
    | some b =>
      match mapFind? k b.items with
      | some v => some (.GENERAL_SUCCESS, some v, t)
      | none => some (.NONEXISTENT_KEY, none, t)

/-- `del` (deletion): same resolution as `grab`; on a hit, erase the
entry and decrement `nPairs`. -/
def del (h : Nat → Nat) (t : EHT) (k : Nat) : Option (EHTStatus × EHT) :=
  match t.directory.get? (toSizeT (bktIndex h t k)) with
  | none => none
  | some none => some (.INDEX_OUT_OF_BOUNDS, t)
  | some (some r) =>
    match t.store.get? r with
    | none => none
    | some b =>
      match mapFind? k b.items with
      | some _ =>
        some (.GENERAL_SUCCESS,
          { t with store := t.store.set r { b with items := mapErase k b.items }
                   nPairs := decSizeT t.nPairs })
      | none => some (.NONEXISTENT_KEY, t)

/-! ## Split (`eht.cc` lines 122–163)

`split` mutates the shared bucket in place and returns the new child
bucket (or `nullptr` when the depth ceiling aborts the split).  We
embed the `while (childBkt->items.empty())` loop with explicit fuel;
`none` marks fuel exhaustion.  Because the depths are `uint32_t` and
each pass increments them by one, `2^32` passes always reach the
`== EHT_MAX_BUCKET_DEPTH` test, so `2^32 + 1` fuel never runs out. -/

/-- One item of the propagation loop at pass depth `d`: test
`hash & (1 << (bkt->depth - 1))` on the `bkt_id_t`-truncated hash; on a
hit insert the item into the child and set the child's id to
`hash & ((1 << bkt->depth) - 1)`.  The `int` shifts are defined only
for counts in `[0, 30]`: a pass with `d = 0` (`uint32` shift count
`2^32 - 1`) or `32 ≤ d` has an undefined bit test, and a hit at
`d = 31` has an undefined id mask — all mapped to `none`. -/
def passOne (h : Nat → Nat) (d : Nat) (c : Bucket) (kv : Nat × Nat) : Option Bucket :=
  if d = 0 ∨ 32 ≤ d then none
  else if hashBit (trunc16 (h kv.1)) (d - 1) then
    if 31 ≤ d then none
    else some { c with items := mapInsert kv.1 kv.2 c.items
                       id := toInt16 (idPattern (trunc16 (h kv.1)) d) }
  else some c

/-- The `for (auto& item : bkt->items)` propagation pass (the parent's
map is only read, never erased from); an empty map executes no shift at
all, so it cannot hit UB. -/
def passAll (h : Nat → Nat) (d : Nat) : Bucket → List (Nat × Nat) → Option Bucket
  | c, [] => some c
  | c, kv :: rest =>
    match passOne h d c kv with
    | none => none
    | some c' => passAll h d c' rest

/-- One iteration of the `while` body up to the ceiling test: increment
both depths, run the propagation pass, and perform the
`if (bkt->items.empty())` swap (`std::swap` of the maps plus copying the
child's id).  `none` when the pass hits the shift UB. -/
def splitPass (h : Nat → Nat) (b c : Bucket) : Option (Bucket × Bucket) :=
  match passAll h (incU32 b.depth) { c with depth := incU32 c.depth } b.items with
  | none => none
  | some c2 =>
    if b.items.isEmpty then
      some ({ b with depth := incU32 b.depth, items := c2.items, id := c2.id },
        { c2 with items := b.items })
    else some ({ b with depth := incU32 b.depth }, c2)

/-- The split loop.  Returns `some (b', none)` when the depth ceiling
aborts the split (bucket marked overflowed, `nullptr` result),
`some (b', some c)` on success, `none` on undefined behaviour in a pass
or on fuel exhaustion (the latter never occurs first: a pass either
resolves the loop or, within at most 32 iterations, shifts out of the
defined range). -/
def splitLoop (h : Nat → Nat) : Nat → Bucket → Bucket → Option (Bucket × Option Bucket)
  | 0, _, _ => none
  | fuel + 1, b, c =>
    if c.items.isEmpty then
      match splitPass h b c with
      | none => none
      | some bc =>
        if bc.1.depth = EHT_MAX_BUCKET_DEPTH then
          some ({ bc.1 with overflowed := true }, none)
        else splitLoop h fuel bc.1 bc.2
    else some (b, some c)

/-- Fuel that the `uint32_t` depth arithmetic can never exhaust. -/
def SPLIT_FUEL : Nat := 2 ^ 32 + 1

/-- `split`: child starts as `Bucket(0, bkt->depth)`; on success the
caller increments the bucket counter. -/
def split (h : Nat → Nat) (b : Bucket) : Option (Bucket × Option Bucket) :=
  splitLoop h SPLIT_FUEL b { overflowed := false, items := [], id := 0, depth := b.depth }

/-! ## Directory growth (`eht.cc` lines 203–253) -/

/-- Write `directory[i] = v`; out of bounds is UB (`none`). -/
def dirSet (dir : List (Option Nat)) (i : Nat) (v : Option Nat) :
    Option (List (Option Nat)) :=
  if i < dir.length then some (dir.set i v) else none

/-- `for (j = start; j < directory.size(); j += step) directory[j] = v`.
Fuel `dir.length` suffices for any `step ≥ 1`. -/
def stepFillAux (v : Option Nat) (step : Nat) :
    Nat → Nat → List (Option Nat) → List (Option Nat)
  | 0, _, dir => dir
  | fuel + 1, j, dir =>
    if j < dir.length then stepFillAux v step fuel (j + step) (dir.set j v) else dir

/-- Strided directory fill starting at `start`. -/
def stepFill (dir : List (Option Nat)) (start step : Nat) (v : Option Nat) :
    List (Option Nat) :=
  stepFillAux v step dir.length start dir

/-- The `for (size_t i = 0; i < size; ++i)` relink loop over the old
slots.  `r`/`cr` are the arena indices of the split bucket and its new
child, `bId`/`cId` their ids, `idBc`/`depthBc` the id and depth the
split bucket had before the call (`put` lines 193–194).  The occupied
branch keeps the source's operator precedence:
`i & ((1 << (depth - 1)) != id)` masks `i` with the boolean.  The
null-slot branch re-reads `directory[i]` after its resets and
reassignments; dereferencing it while still null is UB (`none`). -/
def growLoop (store : List Bucket) (r cr : Nat) (bId cId idBc : Int) (depthBc : Nat) :
    Nat → Nat → List (Option Nat) → Option (List (Option Nat))
  | 0, _, dir => some dir
  | n + 1, i, dir =>
    match dir.get? i with
    | none => none
    | some (some ri) =>
      match store.get? ri with
      | none => none
      | some bi =>
        if i < toSizeT bi.id ∨
            (i &&& (if (2 ^ (bi.depth - 1) : Int) ≠ bi.id then 1 else 0)) ≠ 0 then
          growLoop store r cr bId cId idBc depthBc n (i + 1) (dir.set i none)
        else
          growLoop store r cr bId cId idBc depthBc n (i + 1)
            (stepFill dir (i + 2 ^ bi.depth) (2 ^ bi.depth) (some ri))
    | some none =>
      match dirSet (stepFill dir (toSizeT idBc) (2 ^ depthBc) none) (toSizeT bId) (some r) with
      | none => none
      | some dirB =>
        match dirSet dirB (toSizeT cId) (some cr) with
        | none => none
        | some dirC =>
          match dirC.get? i with
          | some (some ri2) =>
            match store.get? ri2 with
            | none => none
            | some b2 =>
              growLoop store r cr bId cId idBc depthBc n (i + 1)
                (stepFill
                  (stepFill dirC (toSizeT bId + 2 ^ b2.depth) (2 ^ b2.depth) (some r))
                  (toSizeT cId + 2 ^ b2.depth) (2 ^ b2.depth) (some cr))
          | _ => none

/-- The whole `if (bkt->depth > depth)` block: record the old size,
grow the directory by `1 << (bkt->depth - depth)`, set the global depth,
install the split bucket and the child at their ids, then run the relink
loop over the old slots.  Returns the new global depth and directory. -/
def growDir (store : List Bucket) (dir : List (Option Nat)) (oldDepth bDepth : Nat)
    (r cr : Nat) (bId cId idBc : Int) (depthBc : Nat) :
    Option (Nat × List (Option Nat)) :=
  let size := dir.length
  let factor := 2 ^ (bDepth - oldDepth)
  let dir1 := dir ++ List.replicate (size * factor - size) none
  match dirSet dir1 (toSizeT bId) (some r) with
  | none => none
  | some dir2 =>
    match dirSet dir2 (toSizeT cId) (some cr) with
    | none => none
    | some dir3 =>
      match growLoop store r cr bId cId idBc depthBc size 0 dir3 with
      | none => none
      | some dir4 => some (bDepth, dir4)

/-! ## Insert (`eht.cc` lines 171–257) -/

/-- The tail of `put` from the overflow test on: `idBc`/`depthBc` are
`b1.id`/`b1.depth` (`eht.cc` lines 193–194, taken after the insert),
`t2` already holds the inserted pair at arena index `r`.  On a null
child (`split` aborted) the depth is restored and the insert still
succeeds; on success the child is appended to the arena and the
directory is touched only on the `bkt->depth > depth` path. -/
def putSplit (h : Nat → Nat) (t2 : EHT) (r : Nat) (b1 : Bucket) :
    Option (EHTStatus × EHT) :=
  match split h b1 with
  | none => none
  | some (b2, none) =>
    some (.GENERAL_SUCCESS,
      { t2 with store := t2.store.set r { b2 with depth := b1.depth } })
  | some (b2, some c) =>
    if t2.depth < b2.depth then
      match growDir ((t2.store.set r b2) ++ [c]) t2.directory t2.depth b2.depth r
          t2.store.length b2.id c.id b1.id b1.depth with
      | none => none
      | some (d4, dir4) =>
        some (.GENERAL_SUCCESS,
          { t2 with store := (t2.store.set r b2) ++ [c], nBkt := incU32 t2.nBkt
                    depth := d4, directory := dir4 })
    else
      some (.GENERAL_SUCCESS,
        { t2 with store := (t2.store.set r b2) ++ [c], nBkt := incU32 t2.nBkt })

/-- `put` after slot resolution, operating on the bucket at arena
index `r`: overwrite on an existing key (no pair-count change, no
split test), otherwise insert, count the pair, and when the bucket now
exceeds `EHT_MAX_BUCKET_SIZE` and is not overflowed run the split
protocol. -/
def putAt (h : Nat → Nat) (t : EHT) (k v : Nat) (r : Nat) :
    Option (EHTStatus × EHT) :=
  match t.store.get? r with
  | none => none
  | some b =>
    if (mapFind? k b.items).isSome then
      some (.GENERAL_SUCCESS,
        { t with store := t.store.set r { b with items := mapSet k v b.items } })
    else if EHT_MAX_BUCKET_SIZE < (mapInsert k v b.items).length ∧ b.overflowed = false then
      putSplit h
        { t with store := t.store.set r { b with items := mapInsert k v b.items }
                 nPairs := incSizeT t.nPairs }
        r { b with items := mapInsert k v b.items }
    else
      some (.GENERAL_SUCCESS,
        { t with store := t.store.set r { b with items := mapInsert k v b.items }
                 nPairs := incSizeT t.nPairs })

/-- `put`: resolve the slot, materialising `Bucket(bktId, depth)` on a
null slot (and counting the new bucket), then run `putAt` at the
resolved arena index. -/
def put (h : Nat → Nat) (t : EHT) (k v : Nat) : Option (EHTStatus × EHT) :=
  match t.directory.get? (toSizeT (bktIndex h t k)) with
  | none => none
  | some (some r) => putAt h t k v r
  | some none =>
    putAt h
      { t with
          directory := t.directory.set (toSizeT (bktIndex h t k)) (some t.store.length)
          store := t.store ++
            [{ overflowed := false, items := [], id := bktIndex h t k, depth := t.depth }]
          nBkt := incU32 t.nBkt }
      k v t.store.length

/-- Run a list of `put` calls (value = key), propagating UB. -/
def runPuts (h : Nat → Nat) : EHT → List Nat → Option EHT
  | t, [] => some t
  | t, k :: ks =>
    match put h t k k with
    | some (_, t') => runPuts h t' ks
    | none => none

/-! ## Concrete traces and state predicates

The production key types hash like integers; `hid` is the identity
hash (`std::hash<int>` on the test instantiations).  The traces below
drive the table through its split/grow protocol. -/

/-- Identity hash function. -/
def hid : Nat → Nat := fun n => n

/-- 51 keys `0..50`: they all land in the root bucket and the 51st
insert triggers the first split and directory growth. -/
def trace51 : List Nat := List.range 51

/-- `trace51`, then key `52` (overflows the low bucket again, growing
the directory to depth 2), then 26 odd keys `53, 55, …, 103` (they all
route to the depth-1 bucket with id 1, whose split then ends at local
depth 2 = global depth, the non-growing case). -/
def trace78 : List Nat :=
  List.range 51 ++ [52] ++ (List.range 26).map (fun j => 53 + 2 * j)

/-- 51 keys `0, 2^16, 2·2^16, …`: all share their low 16 hash bits, so
the 51st insert drives the split loop to the depth ceiling. -/
def traceAbort : List Nat := (List.range 51).map (fun j => j * 2 ^ 16)

/-- The spec's directory-consistency invariant, as a Boolean check:
`directory.length == 2^globalDepth`, and every occupied slot `i`
references a bucket `b` with `i & (2^b.localDepth - 1) == b.id`. -/
def dirConsistentB (t : EHT) : Bool :=
  (t.directory.length == 2 ^ t.depth) &&
  (List.range t.directory.length).all (fun i =>
    match t.directory.get? i with
    | some (some r) =>
      match t.store.get? r with
      | some b => (((i &&& (2 ^ b.depth - 1) : Nat) : Int) == b.id)
      | none => false
    | _ => true)

/-- Arena indices of the distinct buckets reachable from the directory. -/
def liveRefs (t : EHT) : List Nat := (t.directory.filterMap id).dedup

/-- Sum of the item counts of all distinct buckets reachable from the
directory. -/
def pairSum (t : EHT) : Nat :=
  (liveRefs t).foldl (fun acc r => acc + ((t.store.get? r).map (fun b => b.items.length)).getD 0) 0

/-- The bucket of the C3 evaluation: two items whose hashes differ in
bit 0, splitting from depth 0 to depth 1. -/
def bC3 : Bucket := { overflowed := false, items := [(0, 10), (1, 11)], id := 0, depth := 0 }

/-- A two-item bucket whose keys `0` and `2^20` differ at hash bit 20
but agree on all 16 low bits the `bkt_id_t`-truncated hash keeps: no
pass can separate them, so the split loop runs into the undefined
shifts. -/
def bC6 : Bucket := { overflowed := false, items := [(0, 0), (2 ^ 20, 0)], id := 0, depth := 0 }

/-- A depth-16 table for the C10 truncation instance. -/
def t16 : EHT := { nBkt := 1, depth := 16, nPairs := 0, store := [], directory := [] }

/-- The state after `put hid initEHT 5 9`: used by witnesses. -/
def tW5 : EHT :=
  { nBkt := 1, depth := 0, nPairs := 1
    store := [{ overflowed := false, items := [(5, 9)], id := 0, depth := 0 }]
    directory := [some 0] }

/-- A one-item table at depth 0: used by witnesses. -/
def tW6 : EHT :=
  { nBkt := 1, depth := 0, nPairs := 1
    store := [{ overflowed := false, items := [(3, 4)], id := 0, depth := 0 }]
    directory := [some 0] }

/-- `tW6` after `del hid tW6 3`: used by witnesses. -/
def tW6d : EHT :=
  { nBkt := 1, depth := 0, nPairs := 0
    store := [{ overflowed := false, items := [], id := 0, depth := 0 }]
    directory := [some 0] }

/-- A 51-item bucket whose keys all agree on their low 16 hash bits
(keys `j * 2^16`, identity hash): no pass of the split loop can
separate them, so the loop runs past depth 31 into the undefined
shifts. -/
def bAbort : Bucket :=
  { overflowed := false
    items := (List.range 51).map (fun j => (j * 2 ^ 16, j * 2 ^ 16))
    id := 0, depth := 0 }

/-- The empty child `Bucket(0, 0)` for a split entered at depth 0. -/
def cZero : Bucket := { overflowed := false, items := [], id := 0, depth := 0 }

/-! ## Reachable table states

A state is reachable when some finite sequence of `put`, `del` and
`grab` calls (with arbitrary hash functions, keys and values) produces
it from the constructor's state without undefined behaviour. -/

/-- Reachability by `put`/`del`/`grab` from the constructor state. -/
inductive Reach : EHT → Prop where
  | init : Reach initEHT
  | putStep {t t' : EHT} {h : Nat → Nat} {k v : Nat} {s : EHTStatus} :
      Reach t → put h t k v = some (s, t') → Reach t'
  | delStep {t t' : EHT} {h : Nat → Nat} {k : Nat} {s : EHTStatus} :
      Reach t → del h t k = some (s, t') → Reach t'
  | grabStep {t t' : EHT} {h : Nat → Nat} {k : Nat} {s : EHTStatus} {v : Option Nat} :
      Reach t → grab h t k = some (s, v, t') → Reach t'

/-- Strictly increasing keys: the well-formedness of a `std::map`'s
backing sequence. -/
def ItemsSorted (l : List (Nat × Nat)) : Prop :=
  l.Pairwise (fun x y => x.1 < y.1)

/-- Every bucket in the arena has a well-formed map. -/
def StoreSorted (t : EHT) : Prop := ∀ b ∈ t.store, ItemsSorted b.items

/-! ## Theorems -/

/-- C1: the directory-consistency invariant is *not* preserved by every
reachable state.  After inserting keys `0..50, 52, 53, 55, …, 103`
(identity hash) the table reaches global depth 2, and the 78th insert
splits the bucket with id 1 from local depth 1 to 2 without growing the
directory; the source then never repoints any slot, leaving slot 3
pointing at that bucket although `3 & (2^2 - 1) = 3 ≠ 1`.  The run is
UB-free (`runPuts` returns `some`), the final state fails the invariant
check, and slot 3 indeed holds the arena's bucket 1, which has id 1 and
local depth 2. -/
theorem directory_consistency_violated_on_nongrowing_split :
    (runPuts hid initEHT trace78).map
      (fun t => (dirConsistentB t, t.depth, t.directory.get? 3,
        (t.store.get? 1).map (fun b => (b.id, b.depth))))
      = some (false, 2, some (some 1), some ((1 : Int), 2)) := by
  decide

/-- C2: `pairCount` does not equal the sum of the distinct buckets'
item counts in every reachable state.  After inserting keys `0..50`
(identity hash) the triggered split copies the 25 odd-keyed items into
the new sibling without erasing them from the parent, so the two
reachable buckets hold 76 items while `nPairs` is 51. -/
theorem pairCount_mismatch_after_split :
    ((runPuts hid initEHT trace51).map (fun t => (t.nPairs, pairSum t))
      = some (51, 76)) ∧ (51 : Nat) ≠ 76 := by
  constructor
  · decide
  · decide

/-- C3: a successful split does *not* partition the parent's items.
Splitting a depth-0 bucket holding `(0,10)` and `(1,11)` moves the
bit-0 item `(1,11)` into the child but leaves it in the parent as well:
afterwards it is present in both buckets, contradicting
"present in exactly one of the two buckets … no item duplicated". -/
theorem split_duplicates_items :
    (split hid bC3).map (fun x => (x.1.items, x.2.map Bucket.items))
      = some ([(0, 10), (1, 11)], some [(1, 11)]) := by
  decide

/-- C4: after an insert whose split succeeds at a local depth that does
not exceed `globalDepth`, the directory is *not* repointed: the source
only touches the directory on the `bkt->depth > depth` path.  At the
end of `trace78` the new sibling (arena index 3, id 3, local depth 2)
is referenced by no directory slot — slot 3, the unique slot matching
its id under its depth, still references the split bucket (arena
index 1). -/
theorem nongrowing_split_child_unreachable :
    (runPuts hid initEHT trace78).map
      (fun t => ((t.store.get? 3).map (fun b => (b.id, b.depth)),
        t.directory.contains (some 3), t.directory))
      = some (some ((3 : Int), 2), false, [some 0, some 1, some 2, some 1]) := by
  decide

/-- C5 counterexample: from the reachable state at the end of
`trace78`, inserting key 107 returns success (the insert triggers a
split and a directory growth whose relink loop clears slot 3), after
which looking up 107 fails with `INDEX_OUT_OF_BOUNDS` instead of
returning the stored value 42. -/
theorem insert_lookup_roundtrip_fails_after_grow :
    ((runPuts hid initEHT trace78).bind (fun t => put hid t 107 42)).map
      (fun r => (r.1, (grab hid r.2 107).map (fun g => (g.1, g.2.1))))
      = some (.GENERAL_SUCCESS, some (.INDEX_OUT_OF_BOUNDS, none)) := by
  decide

/-- C6: the overflow/ceiling fallback is unreachable in defined C++
for a bucket that holds any item.  Inserting the 51 keys `j * 2^16` —
which agree on every bit of their 16-bit truncated hashes, the
"indistinguishable keys" scenario the ceiling is there to handle — is
UB-free through the first 50 inserts, but the 51st insert triggers a
split whose loop, unable to separate any key, reaches pass depth 32
and executes `1 << 31` on a 32-bit `int`: undefined behaviour
(`none`), long before the ceiling test at depth 50 could fire and mark
the bucket overflowed.  The same happens for keys separable only by a
hash bit the `bkt_id_t` truncation discards (`bC6`: keys `0` and
`2^20`). -/
theorem overflow_ceiling_unreachable_ub :
    (runPuts hid initEHT (traceAbort.take 50)).isSome = true ∧
    runPuts hid initEHT traceAbort = none ∧
    split hid bC6 = none := by
  refine ⟨by decide, by decide, by decide⟩

/-! ### Association-list lemmas -/

theorem mapFind?_mapSet (k v : Nat) : ∀ l : List (Nat × Nat), mapFind? k (mapSet k v l) = some v := by
  intro l
  induction l with
  | nil => simp [mapSet, mapFind?]
  | cons p t ih =>
    obtain ⟨a, b⟩ := p
    by_cases hlt : k < a
    · simp [mapSet, hlt, mapFind?, Nat.ne_of_lt hlt]
    · by_cases heq : k = a
      · simp [mapSet, hlt, heq, mapFind?]
      · simp [mapSet, hlt, heq, mapFind?, ih]

theorem mapFind?_mapInsert (k v : Nat) :
    ∀ l : List (Nat × Nat), mapFind? k l = none → mapFind? k (mapInsert k v l) = some v := by
  intro l
  induction l with
  | nil => intro _; simp [mapInsert, mapFind?]
  | cons p t ih =>
    obtain ⟨a, b⟩ := p
    intro hf
    by_cases heq : k = a
    · simp [mapFind?, heq] at hf
    · simp only [mapFind?, if_neg heq] at hf
      by_cases hlt : k < a
      · simp [mapInsert, hlt, mapFind?]
      · simp [mapInsert, hlt, heq, mapFind?, ih hf]

theorem mapInsert_ne_nil (k v : Nat) : ∀ l : List (Nat × Nat), mapInsert k v l ≠ [] := by
  intro l
  cases l with
  | nil => simp [mapInsert]
  | cons p t =>
    obtain ⟨a, b⟩ := p
    by_cases hlt : k < a
    · simp [mapInsert, hlt]
    · by_cases heq : k = a <;> simp [mapInsert, hlt, heq]

theorem mapErase_sublist (k : Nat) : ∀ l : List (Nat × Nat), (mapErase k l).Sublist l := by
  intro l
  induction l with
  | nil => simp [mapErase]
  | cons p t ih =>
    obtain ⟨a, b⟩ := p
    by_cases heq : k = a
    · rw [mapErase, if_pos heq]
      exact List.sublist_cons_self (a, b) t
    · rw [mapErase, if_neg heq]
      exact ih.cons₂ (a, b)

theorem mapFind?_eq_none_of_forall (k : Nat) :
    ∀ l : List (Nat × Nat), (∀ p ∈ l, p.1 ≠ k) → mapFind? k l = none := by
  intro l
  induction l with
  | nil => intro _; simp [mapFind?]
  | cons p t ih =>
    obtain ⟨a, b⟩ := p
    intro hall
    have ha : a ≠ k := hall (a, b) (by simp)
    rw [mapFind?, if_neg (fun hk : k = a => ha (Eq.symm hk))]
    exact ih fun q hq => hall q (by simp [hq])

theorem mapFind?_mapErase (k : Nat) {l : List (Nat × Nat)} (hs : ItemsSorted l) :
    mapFind? k (mapErase k l) = none := by
  induction l with
  | nil => simp [mapErase, mapFind?]
  | cons p t ih =>
    obtain ⟨a, b⟩ := p
    rw [ItemsSorted, List.pairwise_cons] at hs
    by_cases heq : k = a
    · rw [mapErase, if_pos heq]
      exact mapFind?_eq_none_of_forall k t fun q hq => by
        have := hs.1 q hq
        omega
    · rw [mapErase, if_neg heq, mapFind?, if_neg heq]
      exact ih hs.2

/-! ### Sortedness preservation -/

theorem mem_mapInsert (k v : Nat) :
    ∀ l : List (Nat × Nat), ∀ q ∈ mapInsert k v l, q = (k, v) ∨ q ∈ l := by
  intro l
  induction l with
  | nil => simp [mapInsert]
  | cons p t ih =>
    obtain ⟨a, b⟩ := p
    intro q hq
    by_cases hlt : k < a
    · rw [mapInsert, if_pos hlt] at hq
      rcases List.mem_cons.mp hq with h | h
      · exact Or.inl h
      · exact Or.inr h
    · by_cases heq : k = a
      · rw [mapInsert, if_neg hlt, if_pos heq] at hq
        exact Or.inr hq
      · rw [mapInsert, if_neg hlt, if_neg heq] at hq
        rcases List.mem_cons.mp hq with h | h
        · exact Or.inr (h ▸ List.mem_cons_self (a, b) t)
        · rcases ih q h with h' | h'
          · exact Or.inl h'
          · exact Or.inr (List.mem_cons_of_mem _ h')

theorem mem_mapSet (k v : Nat) :
    ∀ l : List (Nat × Nat), ∀ q ∈ mapSet k v l, q = (k, v) ∨ q ∈ l := by
  intro l
  induction l with
  | nil => simp [mapSet]
  | cons p t ih =>
    obtain ⟨a, b⟩ := p
    intro q hq
    by_cases hlt : k < a
    · rw [mapSet, if_pos hlt] at hq
      rcases List.mem_cons.mp hq with h | h
      · exact Or.inl h
      · exact Or.inr h
    · by_cases heq : k = a
      · rw [mapSet, if_neg hlt, if_pos heq] at hq
        rcases List.mem_cons.mp hq with h | h
        · exact Or.inl (by simp [h, heq])
        · exact Or.inr (List.mem_cons_of_mem _ h)
      · rw [mapSet, if_neg hlt, if_neg heq] at hq
        rcases List.mem_cons.mp hq with h | h
        · exact Or.inr (h ▸ List.mem_cons_self (a, b) t)
        · rcases ih q h with h' | h'
          · exact Or.inl h'
          · exact Or.inr (List.mem_cons_of_mem _ h')

theorem ItemsSorted_mapInsert (k v : Nat) {l : List (Nat × Nat)} (hs : ItemsSorted l) :
    ItemsSorted (mapInsert k v l) := by
  induction l with
  | nil => simp [mapInsert, ItemsSorted]
  | cons p t ih =>
    obtain ⟨a, b⟩ := p
    rw [ItemsSorted, List.pairwise_cons] at hs
    by_cases hlt : k < a
    · rw [mapInsert, if_pos hlt, ItemsSorted, List.pairwise_cons]
      refine ⟨?_, List.Pairwise.cons hs.1 hs.2⟩
      rintro ⟨x, y⟩ hx
      rcases List.mem_cons.mp hx with h | h
      · simp only [Prod.mk.injEq] at h
        omega
      · have := hs.1 (x, y) h
        simp only at this ⊢
        omega
    · by_cases heq : k = a
      · rw [mapInsert, if_neg hlt, if_pos heq]
        exact List.Pairwise.cons hs.1 hs.2
      · rw [mapInsert, if_neg hlt, if_neg heq, ItemsSorted, List.pairwise_cons]
        refine ⟨?_, ih hs.2⟩
        rintro ⟨x, y⟩ hx
        rcases mem_mapInsert k v t (x, y) hx with h | h
        · simp only [Prod.mk.injEq] at h
          omega
        · exact hs.1 (x, y) h

theorem ItemsSorted_mapSet (k v : Nat) {l : List (Nat × Nat)} (hs : ItemsSorted l) :
    ItemsSorted (mapSet k v l) := by
  induction l with
  | nil => simp [mapSet, ItemsSorted]
  | cons p t ih =>
    obtain ⟨a, b⟩ := p
    rw [ItemsSorted, List.pairwise_cons] at hs
    by_cases hlt : k < a
    · rw [mapSet, if_pos hlt, ItemsSorted, List.pairwise_cons]
      refine ⟨?_, List.Pairwise.cons hs.1 hs.2⟩
      rintro ⟨x, y⟩ hx
      rcases List.mem_cons.mp hx with h | h
      · simp only [Prod.mk.injEq] at h
        omega
      · have := hs.1 (x, y) h
        simp only at this ⊢
        omega
    · by_cases heq : k = a
      · rw [mapSet, if_neg hlt, if_pos heq, ItemsSorted, List.pairwise_cons]
        exact ⟨hs.1, hs.2⟩
      · rw [mapSet, if_neg hlt, if_neg heq, ItemsSorted, List.pairwise_cons]
        refine ⟨?_, ih hs.2⟩
        rintro ⟨x, y⟩ hx
        rcases mem_mapSet k v t (x, y) hx with h | h
        · simp only [Prod.mk.injEq] at h
          omega
        · exact hs.1 (x, y) h

theorem ItemsSorted_mapErase (k : Nat) {l : List (Nat × Nat)} (hs : ItemsSorted l) :
    ItemsSorted (mapErase k l) :=
  List.Pairwise.sublist (mapErase_sublist k l) hs

theorem ItemsSorted_nil : ItemsSorted [] := List.Pairwise.nil

/-! ### Split-loop lemmas -/

theorem passOne_guard {h : Nat → Nat} {d : Nat} {c c' : Bucket} {kv : Nat × Nat}
    (hp : passOne h d c kv = some c') : d ≠ 0 ∧ d < 32 := by
  rw [passOne] at hp
  split at hp
  · cases hp
  next hg =>
    push_neg at hg
    exact ⟨hg.1, by omega⟩

theorem passOne_sorted {h : Nat → Nat} {d : Nat} {c c' : Bucket} {kv : Nat × Nat}
    (hp : passOne h d c kv = some c') (hs : ItemsSorted c.items) :
    ItemsSorted c'.items := by
  rw [passOne] at hp
  split at hp
  · cases hp
  · split at hp
    · split at hp
      · cases hp
      · cases hp
        exact ItemsSorted_mapInsert _ _ hs
    · cases hp
      exact hs

theorem passAll_sorted (h : Nat → Nat) (d : Nat) :
    ∀ (items : List (Nat × Nat)) (c c' : Bucket),
      passAll h d c items = some c' → ItemsSorted c.items → ItemsSorted c'.items := by
  intro items
  induction items with
  | nil =>
    intro c c' hp hs
    rw [passAll] at hp
    cases hp
    exact hs
  | cons x xs ih =>
    intro c c' hp hs
    rw [passAll] at hp
    split at hp
    · cases hp
    next c1 h1 =>
      exact ih c1 c' hp (passOne_sorted h1 hs)

theorem splitPass_depth {h : Nat → Nat} {b c : Bucket} {bc : Bucket × Bucket}
    (hp : splitPass h b c = some bc) : bc.1.depth = incU32 b.depth := by
  rw [splitPass] at hp
  split at hp
  · cases hp
  · split at hp
    · cases hp
      rfl
    · cases hp
      rfl

theorem splitPass_of_ne_nil {h : Nat → Nat} {b c : Bucket} {bc : Bucket × Bucket}
    (hne : b.items ≠ []) (hp : splitPass h b c = some bc) :
    bc.1 = { b with depth := incU32 b.depth } ∧
    passAll h (incU32 b.depth) { c with depth := incU32 c.depth } b.items = some bc.2 := by
  rw [splitPass] at hp
  split at hp
  · cases hp
  next c2 h2 =>
    rw [if_neg (by simpa [List.isEmpty_iff] using hne)] at hp
    cases hp
    exact ⟨rfl, h2⟩

theorem splitPass_sorted {h : Nat → Nat} {b c : Bucket} {bc : Bucket × Bucket}
    (hp : splitPass h b c = some bc)
    (hb : ItemsSorted b.items) (hc : ItemsSorted c.items) :
    ItemsSorted bc.1.items ∧ ItemsSorted bc.2.items := by
  rw [splitPass] at hp
  split at hp
  · cases hp
  next c2 h2 =>
    have hc2 : ItemsSorted c2.items :=
      passAll_sorted h (incU32 b.depth) b.items _ c2 h2 hc
    split at hp
    · cases hp
      exact ⟨hc2, hb⟩
    · cases hp
      exact ⟨hb, hc2⟩

/-- A pass that succeeds on a bucket holding at least one item passed
the shift guard: the incremented depth is in `[1, 31]`.  Consequently
the ceiling test at 50 can never see a successful pass of a non-empty
bucket. -/
theorem splitPass_depth_lt {h : Nat → Nat} {b c : Bucket} {bc : Bucket × Bucket}
    (hne : b.items ≠ []) (hp : splitPass h b c = some bc) :
    bc.1.depth ≠ 0 ∧ bc.1.depth < 32 := by
  have hdep : bc.1.depth = incU32 b.depth := splitPass_depth hp
  rw [splitPass] at hp
  split at hp
  · cases hp
  next c2 h2 =>
    obtain ⟨kv, rest, hitems⟩ : ∃ kv rest, b.items = kv :: rest := by
      cases hbi : b.items with
      | nil => exact absurd hbi hne
      | cons kv rest => exact ⟨kv, rest, rfl⟩
    rw [hitems, passAll] at h2
    split at h2
    · cases h2
    next c1 h1 =>
      rw [hdep]
      exact passOne_guard h1

/-- Along the loop, a bucket with a non-empty map keeps its items, its
id and (until an abort marks it) its overflow flag; an abort happens
exactly at the depth ceiling. -/
theorem splitLoop_frame (h : Nat → Nat) :
    ∀ (fuel : Nat) (b c b' : Bucket) (oc : Option Bucket), b.items ≠ [] →
      splitLoop h fuel b c = some (b', oc) →
      b'.items = b.items ∧ b'.id = b.id ∧
      (oc = none → b'.overflowed = true ∧ b'.depth = EHT_MAX_BUCKET_DEPTH) ∧
      (oc ≠ none → b'.overflowed = b.overflowed) := by
  intro fuel
  induction fuel with
  | zero => intro b c b' oc _ hsl; simp [splitLoop] at hsl
  | succ n ih =>
    intro b c b' oc hne hsl
    rw [splitLoop] at hsl
    by_cases hc : c.items.isEmpty
    · rw [if_pos hc] at hsl
      split at hsl
      · cases hsl
      next bc hbc =>
        have hp1 := (splitPass_of_ne_nil hne hbc).1
        split at hsl
        next hd =>
          obtain ⟨hb, hoc⟩ := Prod.mk.injEq .. ▸ Option.some.injEq .. ▸ hsl
          refine ⟨?_, ?_, ?_, ?_⟩
          · rw [← hb, hp1]
          · rw [← hb, hp1]
          · intro _
            constructor
            · rw [← hb]
            · rw [← hb]
              simpa using hd
          · intro hne'
            exact absurd hoc.symm hne'
        next hd =>
          have hne1 : bc.1.items ≠ [] := by rw [hp1]; exact hne
          obtain ⟨hi, hid2, hab, hsc⟩ := ih _ _ _ _ hne1 hsl
          refine ⟨?_, ?_, ?_, ?_⟩
          · rw [hi, hp1]
          · rw [hid2, hp1]
          · exact hab
          · intro hne'
            rw [hsc hne', hp1]
    · rw [if_neg hc] at hsl
      obtain ⟨hb, hoc⟩ := Prod.mk.injEq .. ▸ Option.some.injEq .. ▸ hsl
      refine ⟨by rw [← hb], by rw [← hb], ?_, fun _ => by rw [← hb]⟩
      intro hnone
      rw [← hoc] at hnone
      simp at hnone

theorem splitLoop_sorted (h : Nat → Nat) :
    ∀ (fuel : Nat) (b c b' : Bucket) (oc : Option Bucket),
      ItemsSorted b.items → ItemsSorted c.items →
      splitLoop h fuel b c = some (b', oc) →
      ItemsSorted b'.items ∧ ∀ c' : Bucket, oc = some c' → ItemsSorted c'.items := by
  intro fuel
  induction fuel with
  | zero => intro b c b' oc _ _ hsl; simp [splitLoop] at hsl
  | succ n ih =>
    intro b c b' oc hb hc hsl
    rw [splitLoop] at hsl
    by_cases hce : c.items.isEmpty
    · rw [if_pos hce] at hsl
      split at hsl
      · cases hsl
      next bc hbc =>
        obtain ⟨h1, h2⟩ := splitPass_sorted hbc hb hc
        split at hsl
        · obtain ⟨hb', hoc⟩ := Prod.mk.injEq .. ▸ Option.some.injEq .. ▸ hsl
          refine ⟨by rw [← hb']; exact h1, ?_⟩
          intro c' hc'
          rw [← hoc] at hc'
          cases hc'
        · exact ih _ _ _ _ h1 h2 hsl
    · rw [if_neg hce] at hsl
      obtain ⟨hb', hoc⟩ := Prod.mk.injEq .. ▸ Option.some.injEq .. ▸ hsl
      refine ⟨by rw [← hb']; exact hb, ?_⟩
      intro c' hc'
      rw [← hoc] at hc'
      cases hc'
      exact hc

theorem splitLoop_mono (h : Nat → Nat) :
    ∀ (f f' : Nat) (b c : Bucket) (x : Bucket × Option Bucket), f ≤ f' →
      splitLoop h f b c = some x → splitLoop h f' b c = some x := by
  intro f
  induction f with
  | zero => intro f' b c x _ hx; simp [splitLoop] at hx
  | succ n ih =>
    intro f' b c x hle hx
    obtain ⟨m, rfl⟩ : ∃ m, f' = m + 1 := ⟨f' - 1, by omega⟩
    rw [splitLoop] at hx ⊢
    by_cases hc : c.items.isEmpty
    · rw [if_pos hc] at hx ⊢
      cases hbc : splitPass h b c with
      | none =>
        rw [hbc] at hx
        exact Option.noConfusion hx
      | some bc =>
        rw [hbc] at hx
        have hx' : (if bc.1.depth = EHT_MAX_BUCKET_DEPTH then
            some ({ bc.1 with overflowed := true }, none)
          else splitLoop h n bc.1 bc.2) = some x := hx
        show (if bc.1.depth = EHT_MAX_BUCKET_DEPTH then
            some ({ bc.1 with overflowed := true }, none)
          else splitLoop h m bc.1 bc.2) = some x
        by_cases hd : bc.1.depth = EHT_MAX_BUCKET_DEPTH
        · rw [if_pos hd] at hx' ⊢
          exact hx'
        · rw [if_neg hd] at hx' ⊢
          exact ih m _ _ _ (by omega) hx'
    · rw [if_neg hc] at hx ⊢
      exact hx

theorem incU32_small {n : Nat} (hn : n + 1 < 2 ^ 32) : incU32 n = n + 1 := by
  rw [incU32]
  omega

/-- In a defined execution, a split of a bucket that holds any item
never returns the overflow abort: the abort requires a completed pass
at depth `EHT_MAX_BUCKET_DEPTH = 50`, but a completed pass of a
non-empty bucket has depth < 32 (`splitPass_depth_lt`). -/
theorem splitLoop_no_abort (h : Nat → Nat) :
    ∀ (fuel : Nat) (b c b' : Bucket), b.items ≠ [] →
      splitLoop h fuel b c = some (b', none) → False := by
  intro fuel
  induction fuel with
  | zero => intro b c b' _ hsl; simp [splitLoop] at hsl
  | succ n ih =>
    intro b c b' hne hsl
    rw [splitLoop] at hsl
    by_cases hce : c.items.isEmpty
    · rw [if_pos hce] at hsl
      split at hsl
      · cases hsl
      next bc hbc =>
        split at hsl
        next hd50 =>
          have hlt := splitPass_depth_lt hne hbc
          rw [EHT_MAX_BUCKET_DEPTH] at hd50
          omega
        · have hb1 := (splitPass_of_ne_nil hne hbc).1
          refine ih bc.1 bc.2 b' ?_ hsl
          rw [hb1]
          exact hne
    · rw [if_neg hce] at hsl
      obtain ⟨-, hoc⟩ := Prod.mk.injEq .. ▸ Option.some.injEq .. ▸ hsl
      cases hoc

/-- Fuel `EHT_MAX_BUCKET_DEPTH - d` already determines the outcome of
the split loop: each pass raises the depth by one, so within that many
passes the loop has either returned (separation, or the ceiling abort
of an empty bucket) or hit the undefined shift; more fuel changes
nothing. -/
theorem splitLoop_det (h : Nat → Nat) :
    ∀ (n m : Nat) (b c : Bucket), b.depth < EHT_MAX_BUCKET_DEPTH →
      EHT_MAX_BUCKET_DEPTH ≤ b.depth + n → n ≤ m →
      splitLoop h n b c = splitLoop h m b c := by
  intro n
  induction n with
  | zero =>
    intro m b c h1 h2 _
    rw [EHT_MAX_BUCKET_DEPTH] at h1 h2
    omega
  | succ k ih =>
    intro m b c h1 h2 hnm
    obtain ⟨m', rfl⟩ : ∃ m', m = m' + 1 := ⟨m - 1, by omega⟩
    rw [splitLoop, splitLoop]
    by_cases hce : c.items.isEmpty
    · rw [if_pos hce, if_pos hce]
      cases hbc : splitPass h b c with
      | none => rfl
      | some bc =>
        have hdep : bc.1.depth = b.depth + 1 := by
          rw [splitPass_depth hbc, incU32_small]
          rw [EHT_MAX_BUCKET_DEPTH] at h1
          omega
        show (if bc.1.depth = EHT_MAX_BUCKET_DEPTH then
            some ({ bc.1 with overflowed := true }, none)
          else splitLoop h k bc.1 bc.2) =
          (if bc.1.depth = EHT_MAX_BUCKET_DEPTH then
            some ({ bc.1 with overflowed := true }, none)
          else splitLoop h m' bc.1 bc.2)
        by_cases hd : bc.1.depth = EHT_MAX_BUCKET_DEPTH
        · rw [if_pos hd, if_pos hd]
        · rw [if_neg hd, if_neg hd]
          apply ih m' bc.1 bc.2
          · rw [hdep]
            rw [hdep] at hd
            rw [EHT_MAX_BUCKET_DEPTH] at h1 hd ⊢
            omega
          · rw [hdep]
            rw [EHT_MAX_BUCKET_DEPTH] at h2 ⊢
            omega
          · omega
    · rw [if_neg hce, if_neg hce]

/-! ### Directory-length preservation -/

theorem stepFillAux_length (v : Option Nat) (step : Nat) :
    ∀ (fuel j : Nat) (dir : List (Option Nat)),
      (stepFillAux v step fuel j dir).length = dir.length := by
  intro fuel
  induction fuel with
  | zero => intro j dir; rfl
  | succ n ih =>
    intro j dir
    rw [stepFillAux]
    split
    · rw [ih]
      exact List.length_set dir j v
    · rfl

theorem stepFill_length (dir : List (Option Nat)) (start step : Nat) (v : Option Nat) :
    (stepFill dir start step v).length = dir.length :=
  stepFillAux_length v step dir.length start dir

theorem dirSet_length {dir dir' : List (Option Nat)} {i : Nat} {v : Option Nat}
    (hd : dirSet dir i v = some dir') : dir'.length = dir.length := by
  rw [dirSet] at hd
  split at hd
  · cases hd
    exact List.length_set dir i v
  · cases hd

theorem growLoop_length (store : List Bucket) (r cr : Nat) (bId cId idBc : Int)
    (depthBc : Nat) :
    ∀ (n i : Nat) (dir dir' : List (Option Nat)),
      growLoop store r cr bId cId idBc depthBc n i dir = some dir' →
      dir'.length = dir.length := by
  intro n
  induction n with
  | zero =>
    intro i dir dir' hg
    rw [growLoop] at hg
    cases hg
    rfl
  | succ m ih =>
    intro i dir dir' hg
    rw [growLoop] at hg
    split at hg
    · cases hg
    · split at hg
      · cases hg
      · split at hg <;> split at hg <;>
          first
            | rw [ih _ _ _ hg, List.length_set]
            | rw [ih _ _ _ hg, stepFill_length]
    · -- null-slot branch
      split at hg
      · cases hg
      next dirB hB =>
        split at hg
        · cases hg
        next dirC hC =>
          split at hg
          · split at hg
            · cases hg
            · rw [ih _ _ _ hg, stepFill_length, stepFill_length,
                dirSet_length hC, dirSet_length hB, stepFill_length]
          · cases hg

theorem growDir_length {store : List Bucket} {dir : List (Option Nat)}
    {oldDepth bDepth r cr : Nat} {bId cId idBc : Int} {depthBc d4 : Nat}
    {dir4 : List (Option Nat)}
    (hg : growDir store dir oldDepth bDepth r cr bId cId idBc depthBc = some (d4, dir4)) :
    d4 = bDepth ∧ dir4.length = dir.length * 2 ^ (bDepth - oldDepth) := by
  rw [growDir] at hg
  split at hg
  · cases hg
  next dir2 h2 =>
    split at hg
    · cases hg
    next dir3 h3 =>
      split at hg
      · cases hg
      next dir5 h5 =>
        cases hg
        have hlen1 : (dir ++ List.replicate
            (dir.length * 2 ^ (bDepth - oldDepth) - dir.length) none).length
            = dir.length * 2 ^ (bDepth - oldDepth) := by
          rw [List.length_append, List.length_replicate]
          have : 1 ≤ 2 ^ (bDepth - oldDepth) := Nat.one_le_two_pow
          have : dir.length ≤ dir.length * 2 ^ (bDepth - oldDepth) :=
            Nat.le_mul_of_pos_right _ (by omega)
          omega
        exact ⟨rfl, by
          rw [growLoop_length _ _ _ _ _ _ _ _ _ _ _ h5, dirSet_length h3,
            dirSet_length h2, hlen1]⟩

/-! ### `put` frame lemmas -/

theorem putSplit_frame {h : Nat → Nat} {t2 t' : EHT} {r : Nat} {b1 : Bucket}
    {s : EHTStatus} (hp : putSplit h t2 r b1 = some (s, t')) :
    s = .GENERAL_SUCCESS ∧ t2.depth ≤ t'.depth ∧
    t'.directory.length = t2.directory.length * 2 ^ (t'.depth - t2.depth) := by
  rw [putSplit] at hp
  split at hp
  · cases hp
  · cases hp
    exact ⟨rfl, Nat.le_refl _, by simp⟩
  next b2 c heq =>
    split at hp
    next hlt =>
      split at hp
      · cases hp
      next d4 dir4 hg =>
        cases hp
        obtain ⟨hd4, hlen⟩ := growDir_length hg
        subst hd4
        exact ⟨rfl, Nat.le_of_lt hlt, by simpa using hlen⟩
    next hge =>
      cases hp
      exact ⟨rfl, Nat.le_refl _, by simp⟩

theorem putAt_frame {h : Nat → Nat} {t t' : EHT} {k v r : Nat} {s : EHTStatus}
    (hp : putAt h t k v r = some (s, t')) :
    s = .GENERAL_SUCCESS ∧ t.depth ≤ t'.depth ∧
    t'.directory.length = t.directory.length * 2 ^ (t'.depth - t.depth) := by
  rw [putAt] at hp
  split at hp
  · cases hp
  next b heq =>
    split at hp
    · cases hp
      exact ⟨rfl, Nat.le_refl _, by simp⟩
    · split at hp
      · have hf := putSplit_frame hp
        simpa using hf
      · cases hp
        exact ⟨rfl, Nat.le_refl _, by simp⟩

theorem put_frame {h : Nat → Nat} {t t' : EHT} {k v : Nat} {s : EHTStatus}
    (hp : put h t k v = some (s, t')) :
    s = .GENERAL_SUCCESS ∧ t.depth ≤ t'.depth ∧
    t'.directory.length = t.directory.length * 2 ^ (t'.depth - t.depth) := by
  rw [put] at hp
  split at hp
  · cases hp
  · exact putAt_frame hp
  · have := putAt_frame hp
    simpa using this

/-! ### `grab`/`del` frame helpers -/

theorem grab_state {h : Nat → Nat} {t : EHT} {k : Nat}
    {res : EHTStatus × Option Nat × EHT} (hg : grab h t k = some res) :
    res.2.2 = t := by
  rw [grab] at hg
  split at hg
  · cases hg
  · cases hg
    rfl
  · split at hg
    · cases hg
    · split at hg
      · cases hg
        rfl
      · cases hg
        rfl

theorem del_fail {h : Nat → Nat} {t t' : EHT} {k : Nat} {s : EHTStatus}
    (hd : del h t k = some (s, t')) (hs : s ≠ .GENERAL_SUCCESS) : t' = t := by
  rw [del] at hd
  split at hd
  · cases hd
  · cases hd
    rfl
  · split at hd
    · cases hd
    · split at hd
      · cases hd
        exact absurd rfl hs
      · cases hd
        rfl

theorem del_success {h : Nat → Nat} {t t' : EHT} {k : Nat}
    (hd : del h t k = some (.GENERAL_SUCCESS, t')) :
    t'.depth = t.depth ∧ t'.nBkt = t.nBkt ∧ t'.directory = t.directory ∧
    t'.nPairs = decSizeT t.nPairs ∧
    ∃ r b, t.directory.get? (toSizeT (bktIndex h t k)) = some (some r) ∧
      t.store.get? r = some b ∧
      t'.store = t.store.set r { b with items := mapErase k b.items } := by
  rw [del] at hd
  split at hd
  · cases hd
  · cases hd
  next r heq =>
    split at hd
    · cases hd
    next b hb =>
      split at hd
      · cases hd
        exact ⟨rfl, rfl, rfl, rfl, r, b, heq, hb, rfl⟩
      · cases hd

theorem del_dir {h : Nat → Nat} {t t' : EHT} {k : Nat} {s : EHTStatus}
    (hd : del h t k = some (s, t')) :
    t'.directory = t.directory ∧ t'.depth = t.depth ∧ t'.nBkt = t.nBkt ∧
    t'.store.length = t.store.length := by
  rw [del] at hd
  split at hd
  · cases hd
  · cases hd
    exact ⟨rfl, rfl, rfl, rfl⟩
  · split at hd
    · cases hd
    · split at hd
      · cases hd
        exact ⟨rfl, rfl, rfl, List.length_set ..⟩
      · cases hd
        exact ⟨rfl, rfl, rfl, rfl⟩

/-! ### Machine-integer facts -/

theorem toInt16_small {x : Nat} (hx : x < 2 ^ 15) : toInt16 x = (x : Int) := by
  rw [toInt16, if_pos]
  · rw [Nat.mod_eq_of_lt (by omega)]
  · rw [Nat.mod_eq_of_lt (by omega)]
    exact hx

theorem toSizeT_small {x : Nat} (hx : x < 2 ^ 64) : toSizeT (x : Int) = x := by
  rw [toSizeT, Int.emod_eq_of_lt (by omega) (by exact_mod_cast hx)]
  exact Int.toNat_ofNat x

/-! ### Reachability invariants -/

theorem reach_len {t : EHT} (hr : Reach t) : t.directory.length = 2 ^ t.depth := by
  induction hr with
  | init => rfl
  | putStep _ hp ih =>
    obtain ⟨-, hle, hrel⟩ := put_frame hp
    rw [hrel, ih, ← pow_add, Nat.add_sub_cancel' hle]
  | delStep _ hd ih =>
    obtain ⟨hdir, hdep, -, -⟩ := del_dir hd
    rw [hdir, hdep, ih]
  | grabStep _ hg ih =>
    have hst := grab_state hg
    simp only at hst
    rw [hst]
    exact ih

theorem storeSorted_set {st : List Bucket} {r : Nat} {b : Bucket}
    (hs : ∀ x ∈ st, ItemsSorted x.items) (hb : ItemsSorted b.items) :
    ∀ x ∈ st.set r b, ItemsSorted x.items := by
  intro x hx
  rcases List.mem_or_eq_of_mem_set hx with hmem | heq
  · exact hs x hmem
  · exact heq ▸ hb

theorem putSplit_sorted {h : Nat → Nat} {t2 t' : EHT} {r : Nat} {b1 : Bucket}
    {s : EHTStatus} (hp : putSplit h t2 r b1 = some (s, t'))
    (hst : ∀ x ∈ t2.store, ItemsSorted x.items) (hb1 : ItemsSorted b1.items) :
    ∀ x ∈ t'.store, ItemsSorted x.items := by
  rw [putSplit] at hp
  split at hp
  · cases hp
  next b2 hsl =>
    have hs2 := splitLoop_sorted h SPLIT_FUEL b1 _ b2 none hb1 ItemsSorted_nil hsl
    cases hp
    exact storeSorted_set hst hs2.1
  next b2 c hsl =>
    have hs2 := splitLoop_sorted h SPLIT_FUEL b1 _ b2 (some c) hb1 ItemsSorted_nil hsl
    have hsc : ItemsSorted c.items := hs2.2 c rfl
    have hset : ∀ x ∈ (t2.store.set r b2) ++ [c], ItemsSorted x.items := by
      intro x hx
      rcases List.mem_append.mp hx with hmem | hmem
      · exact storeSorted_set hst hs2.1 x hmem
      · rw [List.mem_singleton.mp hmem]
        exact hsc
    split at hp
    · split at hp
      · cases hp
      · cases hp
        exact hset
    · cases hp
      exact hset

theorem putAt_sorted {h : Nat → Nat} {t t' : EHT} {k v r : Nat} {s : EHTStatus}
    (hp : putAt h t k v r = some (s, t'))
    (hst : ∀ x ∈ t.store, ItemsSorted x.items) :
    ∀ x ∈ t'.store, ItemsSorted x.items := by
  rw [putAt] at hp
  split at hp
  · cases hp
  next b hb =>
    have hbs : ItemsSorted b.items := hst b (List.get?_mem hb)
    split at hp
    · cases hp
      exact storeSorted_set hst (ItemsSorted_mapSet k v hbs)
    · split at hp
      · exact putSplit_sorted hp (storeSorted_set hst (ItemsSorted_mapInsert k v hbs))
          (ItemsSorted_mapInsert k v hbs)
      · cases hp
        exact storeSorted_set hst (ItemsSorted_mapInsert k v hbs)

theorem put_sorted {h : Nat → Nat} {t t' : EHT} {k v : Nat} {s : EHTStatus}
    (hp : put h t k v = some (s, t')) (hst : StoreSorted t) : StoreSorted t' := by
  rw [put] at hp
  split at hp
  · cases hp
  · exact putAt_sorted hp hst
  · refine putAt_sorted hp ?_
    intro x hx
    rcases List.mem_append.mp hx with hmem | hmem
    · exact hst x hmem
    · rw [List.mem_singleton.mp hmem]
      exact ItemsSorted_nil

theorem del_sorted {h : Nat → Nat} {t t' : EHT} {k : Nat} {s : EHTStatus}
    (hd : del h t k = some (s, t')) (hst : StoreSorted t) : StoreSorted t' := by
  rw [del] at hd
  split at hd
  · cases hd
  · cases hd
    exact hst
  · split at hd
    · cases hd
    next b hb =>
      split at hd
      · cases hd
        exact storeSorted_set hst (ItemsSorted_mapErase k (hst b (List.get?_mem hb)))
      · cases hd
        exact hst

theorem reach_sorted {t : EHT} (hr : Reach t) : StoreSorted t := by
  induction hr with
  | init =>
    intro b hb
    rw [initEHT] at hb
    simp only [List.mem_singleton] at hb
    rw [hb]
    exact ItemsSorted_nil
  | putStep _ hp ih => exact put_sorted hp ih
  | delStep _ hd ih => exact del_sorted hd ih
  | grabStep _ hg ih =>
    have hst := grab_state hg
    simp only at hst
    rw [hst]
    exact ih

/-! ### Lookup after insert/delete -/

theorem grab_eq {h : Nat → Nat} {t' : EHT} {k v r : Nat} {b : Bucket}
    (hs : t'.directory.get? (toSizeT (bktIndex h t' k)) = some (some r))
    (hb : t'.store.get? r = some b)
    (hf : mapFind? k b.items = some v) :
    grab h t' k = some (.GENERAL_SUCCESS, some v, t') := by
  simp only [grab, hs, hb, hf]

theorem grab_eq_none {h : Nat → Nat} {t' : EHT} {k r : Nat} {b : Bucket}
    (hs : t'.directory.get? (toSizeT (bktIndex h t' k)) = some (some r))
    (hb : t'.store.get? r = some b)
    (hf : mapFind? k b.items = none) :
    grab h t' k = some (.NONEXISTENT_KEY, none, t') := by
  simp only [grab, hs, hb, hf]

theorem putSplit_lookup {h : Nat → Nat} {t2 t' : EHT} {k v r : Nat} {b1 : Bucket}
    {s : EHTStatus}
    (hp : putSplit h t2 r b1 = some (s, t'))
    (hdep : t'.depth = t2.depth)
    (hslot : t2.directory.get? (toSizeT (toInt16 (h k % 2 ^ t2.depth))) = some (some r))
    (hr : r < t2.store.length)
    (hfind : mapFind? k b1.items = some v)
    (hne : b1.items ≠ []) :
    grab h t' k = some (.GENERAL_SUCCESS, some v, t') := by
  rw [putSplit] at hp
  split at hp
  · cases hp
  next b2 hsl =>
    have hfr := splitLoop_frame h SPLIT_FUEL b1 _ b2 none hne hsl
    cases hp
    refine grab_eq (b := { b2 with depth := b1.depth }) hslot
      (List.get?_set_eq_of_lt _ hr) ?_
    show mapFind? k b2.items = some v
    rw [hfr.1]
    exact hfind
  next b2 c hsl =>
    have hfr := splitLoop_frame h SPLIT_FUEL b1 _ b2 (some c) hne hsl
    split at hp
    next hlt =>
      split at hp
      · cases hp
      next d4 dir4 hg =>
        cases hp
        obtain ⟨hd4, -⟩ := growDir_length hg
        exfalso
        simp only at hdep
        omega
    next hge =>
      cases hp
      refine grab_eq (b := b2) hslot ?_ ?_
      · show ((t2.store.set r b2) ++ [c]).get? r = some b2
        rw [List.get?_append (by rw [List.length_set]; exact hr)]
        exact List.get?_set_eq_of_lt _ hr
      · rw [hfr.1]
        exact hfind

theorem putAt_lookup {h : Nat → Nat} {tA t' : EHT} {k v r : Nat} {s : EHTStatus}
    (hp : putAt h tA k v r = some (s, t'))
    (hdep : t'.depth = tA.depth)
    (hslot : tA.directory.get? (toSizeT (toInt16 (h k % 2 ^ tA.depth))) = some (some r)) :
    grab h t' k = some (.GENERAL_SUCCESS, some v, t') := by
  rw [putAt] at hp
  split at hp
  · cases hp
  next b hb =>
    obtain ⟨hr, -⟩ := List.get?_eq_some.mp hb
    split at hp
    next hfound =>
      cases hp
      exact grab_eq hslot (List.get?_set_eq_of_lt _ hr) (mapFind?_mapSet k v b.items)
    next hnotfound =>
      have hfn : mapFind? k b.items = none := by
        cases hmf : mapFind? k b.items with
        | none => rfl
        | some w => rw [hmf] at hnotfound; simp at hnotfound
      split at hp
      · refine putSplit_lookup hp hdep hslot ?_ ?_ (mapInsert_ne_nil k v b.items)
        · show r < (tA.store.set r _).length
          rw [List.length_set]
          exact hr
        · exact mapFind?_mapInsert k v b.items hfn
      · cases hp
        exact grab_eq hslot (List.get?_set_eq_of_lt _ hr)
          (mapFind?_mapInsert k v b.items hfn)

/-- C5 (amended): from any state, an insert that does not grow the
directory is immediately readable back (`lookup` returns the stored
value with success); and from any reachable state, a delete of a key
whose directory slot is occupied leaves the immediate lookup failing
with `NONEXISTENT_KEY` (the spec's `KeyNotFound`).  The original
round-trip claim fails after an insert that grows the directory
(see the counterexample theorem). -/
theorem roundtrip_without_directory_growth :
    (∀ (h : Nat → Nat) (t t' : EHT) (k v : Nat) (s : EHTStatus),
        put h t k v = some (s, t') →
        t'.directory.length = t.directory.length →
        grab h t' k = some (.GENERAL_SUCCESS, some v, t')) ∧
    (∀ (h : Nat → Nat) (t t' : EHT) (k : Nat) (s : EHTStatus),
        Reach t → del h t k = some (s, t') →
        (∃ r : Nat, t.directory.get? (toSizeT (bktIndex h t k)) = some (some r)) →
        grab h t' k = some (.NONEXISTENT_KEY, none, t')) := by
  constructor
  · intro h t t' k v s hp hlen
    obtain ⟨-, hle, hrel⟩ := put_frame hp
    rw [hlen] at hrel
    rw [put] at hp
    split at hp
    · cases hp
    next r heq =>
      obtain ⟨hil, -⟩ := List.get?_eq_some.mp heq
      have hdep : t'.depth = t.depth := by
        rcases Nat.lt_or_ge (t'.depth - t.depth) 1 with he | he
        · omega
        · exfalso
          have h2 : 2 ^ 1 ≤ 2 ^ (t'.depth - t.depth) :=
            Nat.pow_le_pow_right (by omega) he
          have h3 : t.directory.length * 2 ≤
              t.directory.length * 2 ^ (t'.depth - t.depth) :=
            Nat.mul_le_mul_left _ h2
          omega
      exact putAt_lookup hp hdep heq
    next heq =>
      obtain ⟨hil, -⟩ := List.get?_eq_some.mp heq
      have hlenM : (t.directory.set (toSizeT (bktIndex h t k))
          (some t.store.length)).length = t.directory.length := List.length_set ..
      have hdep : t'.depth = t.depth := by
        rcases Nat.lt_or_ge (t'.depth - t.depth) 1 with he | he
        · omega
        · exfalso
          have h2 : 2 ^ 1 ≤ 2 ^ (t'.depth - t.depth) :=
            Nat.pow_le_pow_right (by omega) he
          have h3 : t.directory.length * 2 ≤
              t.directory.length * 2 ^ (t'.depth - t.depth) :=
            Nat.mul_le_mul_left _ h2
          omega
      refine putAt_lookup hp hdep ?_
      show (t.directory.set (toSizeT (bktIndex h t k)) (some t.store.length)).get?
          (toSizeT (toInt16 (h k % 2 ^ t.depth))) = some (some t.store.length)
      exact List.get?_set_eq_of_lt _ hil
  · intro h t t' k s hreach hd hex
    obtain ⟨r, hslot⟩ := hex
    rw [del] at hd
    split at hd
    · cases hd
    next heq =>
      rw [heq] at hslot
      cases hslot
    next r2 heq =>
      rw [heq] at hslot
      have hr2 : r2 = r := by
        simpa using hslot
      subst hr2
      split at hd
      · cases hd
      next b hb =>
        obtain ⟨hrlt, -⟩ := List.get?_eq_some.mp hb
        have hbs : ItemsSorted b.items := reach_sorted hreach b (List.get?_mem hb)
        split at hd
        next w hfound =>
          cases hd
          exact grab_eq_none heq (List.get?_set_eq_of_lt _ hrlt)
            (mapFind?_mapErase k hbs)
        next hnotfound =>
          cases hd
          exact grab_eq_none heq hb hnotfound

/-- Witness for the amended round-trip theorem: concrete insert at the
constructor state, then lookup; concrete delete at the constructor
state, then lookup. -/
theorem roundtrip_without_directory_growth_witness :
    grab hid tW5 5 = some (.GENERAL_SUCCESS, some 9, tW5) ∧
    grab hid initEHT 3 = some (.NONEXISTENT_KEY, none, initEHT) := by
  constructor
  · exact roundtrip_without_directory_growth.1 hid initEHT tW5 5 9 .GENERAL_SUCCESS
      (by decide) (by decide)
  · exact roundtrip_without_directory_growth.2 hid initEHT initEHT 3 .NONEXISTENT_KEY
      Reach.init (by decide) ⟨0, by decide⟩

/-- C7: `getLocalDepth` on an id whose directory slot is null returns
the `INVALID_ID` sentinel (the code's `BucketNotFound` signal), and on
an id whose slot is occupied returns that bucket's local depth.  The
function is `const` in the source — it performs no writes — so the
table state is unchanged in both cases (the embedding returns no
state).  Ids outside the directory vector are excluded: that access is
undefined behaviour in the source. -/
theorem getLocalDepth_spec :
    ∀ (t : EHT) (i : Int),
      (t.directory.get? (toSizeT i) = some none →
        getLocalDepth t i = some INVALID_ID) ∧
      (∀ (r : Nat) (b : Bucket), t.directory.get? (toSizeT i) = some (some r) →
        t.store.get? r = some b → getLocalDepth t i = some (b.depth : Int)) := by
  intro t i
  constructor
  · intro hs
    simp only [getLocalDepth, hs]
  · intro r b hs hb
    simp only [getLocalDepth, hs, hb]

/-- Witness: `getLocalDepth` at the constructor state's root bucket. -/
theorem getLocalDepth_spec_witness :
    getLocalDepth initEHT 0 = some (((0 : Nat) : Int)) :=
  (getLocalDepth_spec initEHT 0).2 0
    { overflowed := false, items := [], id := 0, depth := 0 } (by decide) (by decide)

/-- C8: `grab` never modifies the table; a failing `del`
(`INDEX_OUT_OF_BOUNDS` or `NONEXISTENT_KEY`) returns the table exactly
as it was; a successful `del` changes exactly the resolved bucket's
item map (erasing the key) and the pair counter — the global depth,
the bucket counter, the directory, and every other arena bucket
(hence every bucket's id and local depth) are unchanged.  Deletion
never merges buckets or shrinks the directory. -/
theorem lookup_delete_frame :
    (∀ (h : Nat → Nat) (t : EHT) (k : Nat) (res : EHTStatus × Option Nat × EHT),
        grab h t k = some res → res.2.2 = t) ∧
    (∀ (h : Nat → Nat) (t t' : EHT) (k : Nat) (s : EHTStatus),
        del h t k = some (s, t') → s ≠ .GENERAL_SUCCESS → t' = t) ∧
    (∀ (h : Nat → Nat) (t t' : EHT) (k : Nat),
        del h t k = some (.GENERAL_SUCCESS, t') →
        t'.depth = t.depth ∧ t'.nBkt = t.nBkt ∧ t'.directory = t.directory ∧
        t'.nPairs = decSizeT t.nPairs ∧
        ∃ r b, t.directory.get? (toSizeT (bktIndex h t k)) = some (some r) ∧
          t.store.get? r = some b ∧
          t'.store = t.store.set r { b with items := mapErase k b.items }) := by
  refine ⟨?_, ?_, ?_⟩
  · intro h t k res hg
    exact grab_state hg
  · intro h t t' k s hd hs
    exact del_fail hd hs
  · intro h t t' k hd
    exact del_success hd

/-- Witness: the three frame facts at concrete tables — a lookup and a
failing delete at the constructor state, and a successful delete on a
one-item table. -/
theorem lookup_delete_frame_witness :
    ((.NONEXISTENT_KEY, none, initEHT) : EHTStatus × Option Nat × EHT).2.2 = initEHT ∧
    initEHT = initEHT ∧
    (tW6d.depth = tW6.depth ∧ tW6d.nBkt = tW6.nBkt ∧ tW6d.directory = tW6.directory ∧
      tW6d.nPairs = decSizeT tW6.nPairs ∧
      ∃ r b, tW6.directory.get? (toSizeT (bktIndex hid tW6 3)) = some (some r) ∧
        tW6.store.get? r = some b ∧
        tW6d.store = tW6.store.set r { b with items := mapErase 3 b.items }) := by
  refine ⟨?_, ?_, ?_⟩
  · exact lookup_delete_frame.1 hid initEHT 0 (.NONEXISTENT_KEY, none, initEHT) (by decide)
  · exact lookup_delete_frame.2.1 hid initEHT initEHT 0 .NONEXISTENT_KEY (by decide)
      (by decide)
  · exact lookup_delete_frame.2.2 hid tW6 tW6d 3 (by decide)

/-- C9: the claimed termination dichotomy fails on the code.  For the
51-item bucket `bAbort` (all keys agreeing on their truncated hashes),
the loop run with the claimed iteration budget
`EHT_MAX_BUCKET_DEPTH - d = 50` resolves to undefined behaviour: no
pass separates a key, and the depth ceiling is never reached because
the pass at depth 32 executes `1 << 31` first.  Unbounded fuel
(`SPLIT_FUEL`) gives the same `none`, so this is the shift UB, not
fuel exhaustion.  For contrast, a bucket whose keys separate on the
first pass (`bC3`) resolves within the budget. -/
theorem split_loop_ub_before_ceiling :
    splitLoop hid (EHT_MAX_BUCKET_DEPTH - bAbort.depth) bAbort cZero = none ∧
    splitLoop hid SPLIT_FUEL bAbort cZero = none ∧
    (splitLoop hid (EHT_MAX_BUCKET_DEPTH - bC3.depth) bC3 cZero).isSome = true := by
  refine ⟨by decide, by decide, by decide⟩

/-- C10: in every reachable state with `globalDepth ≤ 15` the
directory index of a key is exactly `hash(key) mod 2^globalDepth`
(the `int16_t` cast is the identity there) and lies inside the
directory, whose length is `2^globalDepth`; at depth 16 the cast is no
longer the identity: hash `2^15` is sent to `-32768 ≠ 32768`. -/
theorem bktIndex_bounds :
    (∀ (h : Nat → Nat) (t : EHT) (k : Nat), Reach t → t.depth ≤ 15 →
        bktIndex h t k = ((h k % 2 ^ t.depth : Nat) : Int) ∧
        toSizeT (bktIndex h t k) = h k % 2 ^ t.depth ∧
        toSizeT (bktIndex h t k) < t.directory.length) ∧
    (t16.depth = 16 ∧
      bktIndex (fun _ => 2 ^ 15) t16 0 ≠
        (((fun _ : Nat => 2 ^ 15) 0 % 2 ^ t16.depth : Nat) : Int)) := by
  constructor
  · intro h t k hr hd
    have hpos : 0 < 2 ^ t.depth := Nat.pos_pow_of_pos _ (by omega)
    have hlt : h k % 2 ^ t.depth < 2 ^ t.depth := Nat.mod_lt _ hpos
    have hsm : h k % 2 ^ t.depth < 2 ^ 15 :=
      lt_of_lt_of_le hlt (Nat.pow_le_pow_right (by omega) hd)
    have h16 : bktIndex h t k = ((h k % 2 ^ t.depth : Nat) : Int) := by
      rw [bktIndex]
      exact toInt16_small hsm
    refine ⟨h16, ?_, ?_⟩
    · rw [h16]
      exact toSizeT_small (by omega)
    · rw [h16, toSizeT_small (by omega), reach_len hr]
      exact hlt
  · exact ⟨rfl, by decide⟩

/-- Witness: the index facts at the constructor state. -/
theorem bktIndex_bounds_witness :
    bktIndex hid initEHT 7 = ((hid 7 % 2 ^ initEHT.depth : Nat) : Int) ∧
    toSizeT (bktIndex hid initEHT 7) < initEHT.directory.length := by
  have hfacts := bktIndex_bounds.1 hid initEHT 7 Reach.init (by decide)
  exact ⟨hfacts.1, hfacts.2.2⟩

end HeraclesEHT
